import Mathlib

/-!
# Verification of the training-dashboard aggregation pipeline

Shallow embedding of the core data pipeline of `streamlit_app.py`:
column-name normalization, per-row identity/status normalization,
per-employee aggregation with the 80% pass threshold, the per-manager
rollup, the overview summary counts, and the failing-employees view.

Modelling conventions:
* a pandas cell is `Option String` (`none` is NaN/null); `astype(str)`
  renders a null cell as the string `"nan"`;
* a DataFrame is a `Table`: a list of column names plus a list of rows;
  accessing a column that is not present is a `KeyError`, modelled as
  `Except.error` carrying the missing key (the message Streamlit surfaces);
* Python string primitives (`strip`, `lower`, `title`, single-character
  `replace`, `split("@")[0]`, `startswith`) are implemented structurally
  over `List Char` so that every definition evaluates;
* numbers are exact rationals; pandas/numpy `.round(2)` rounds
  half-to-even (banker's rounding).  The stored percentage is the exact
  rational value of that rounding, computed by integer arithmetic
  (`rintDiv`) and proved equal to the textbook formula `round2` below.
-/

deriving instance DecidableEq for Except

/-- `str(x)` of a possibly-null pandas cell: a null renders as `"nan"`. -/
def pyStrOfOpt (v : Option String) : String := v.getD "nan"

/-- Leading and trailing whitespace removal on the character list:
Python `str.strip()`. -/
def trimChars (cs : List Char) : List Char :=
  ((cs.dropWhile Char.isWhitespace).reverse.dropWhile Char.isWhitespace).reverse

/-- Python `str.strip()`. -/
def pyStrip (s : String) : String := ⟨trimChars s.data⟩

/-- Python `str.lower()` (ASCII, which is all this data contains). -/
def pyLower (s : String) : String := ⟨s.data.map Char.toLower⟩

/-- Replacement of every occurrence of one character by a character list;
all `str.replace` calls in the source have single-character patterns. -/
def replCh (a : Char) (b : List Char) : List Char → List Char
  | [] => []
  | c :: cs => (if c = a then b else [c]) ++ replCh a b cs

/-- Python `str.replace(a, b)` for a single-character pattern `a`. -/
def pyReplace (s : String) (a : Char) (b : String) : String :=
  ⟨replCh a b.data s.data⟩

/-- One step of Python `str.title()`: the boolean says whether the previous
character was cased (alphabetic); a cased character after an uncased one is
uppercased, a cased character after a cased one is lowercased. -/
def pyTitleGo : Bool → List Char → List Char
  | _, [] => []
  | prevCased, c :: cs =>
    if c.isAlpha then
      (if prevCased then c.toLower else c.toUpper) :: pyTitleGo true cs
    else
      c :: pyTitleGo false cs

/-- Python `str.title()` (for the ASCII data this pipeline handles). -/
def pyTitle (s : String) : String := ⟨pyTitleGo false s.data⟩

/-- Python `str.startswith(p)`. -/
def pyStartsWith (s p : String) : Bool := p.data.isPrefixOf s.data

/-- Python `s.split(sep)[0]` for a single-character separator. -/
def pySplitHead (s : String) (sep : Char) : String :=
  ⟨s.data.takeWhile (fun c => c ≠ sep)⟩

/-- String concatenation on the underlying character lists. -/
def strCat (a b : String) : String := ⟨a.data ++ b.data⟩

/-- `normalizar_colunas`, per column name:
`str.strip().lower().replace(" ", "_").replace("?", "")`. -/
def normColName (s : String) : String :=
  pyReplace (pyReplace (pyLower (pyStrip s)) ' ' "_") '?' ""

/-- `normalizar_texto`: `col.astype(str).str.strip().str.lower()` on one cell. -/
def normalizar_texto (v : Option String) : String :=
  pyLower (pyStrip (pyStrOfOpt v))

/-- `formatar_nome`: `col.astype(str).str.strip().str.title()` on one cell. -/
def formatar_nome (v : Option String) : String :=
  pyTitle (pyStrip (pyStrOfOpt v))

/-- Pandas `Series + " " + Series` on string cells: null propagates. -/
def optConcat (a b : Option String) : Option String :=
  match a, b with
  | some x, some y => some (strCat x (strCat " " y))
  | _, _ => none

/-- One raw row of the input table; every logical column is loosely typed
and possibly null. -/
structure RawRecord where
  email : Option String
  first_name : Option String
  last_name : Option String
  manager_name : Option String
  department : Option String
  training_status : Option String
deriving DecidableEq, Repr

/-- The loaded DataFrame: its column names and its rows. -/
structure Table where
  cols : List String
  rows : List RawRecord
deriving DecidableEq, Repr

/-- A normalized row, after the `Normalização dos dados` block. -/
structure NormRecord where
  email : String
  nome_funcionario : String
  manager_name : String
  department : String
  tipo : String
  concluido : Bool
deriving DecidableEq, Repr

/-- The fallback employee-name derivation (no `first_name`/`last_name`
columns): `email.str.split("@").str[0].str.replace(".", " ").str.title()`,
applied to the already-normalized email. -/
def nomeFromEmail (email : String) : String :=
  pyTitle (pyReplace (pySplitHead email '@') '.' " ")

/-- Normalization of one row (`hasNames` says whether the dataset has both
`first_name` and `last_name` columns, checked once per dataset). -/
def normalizeRow (hasNames : Bool) (r : RawRecord) : NormRecord :=
  let email := normalizar_texto r.email
  { email := email
    nome_funcionario :=
      if hasNames then formatar_nome (optConcat r.first_name r.last_name)
      else nomeFromEmail email
    manager_name := formatar_nome r.manager_name
    department := formatar_nome r.department
    tipo := if pyStartsWith email "extern" then "Externo" else "Interno"
    concluido := pyLower (pyStrip (pyStrOfOpt r.training_status)) = "completed" }

/-- The whole normalization block over a table. Each `df[c]` access on a
column absent after `normalizar_colunas` raises `KeyError(c)`, modelled as
`Except.error c`; accesses happen in source order (`email`, then
`manager_name`, `department`, `training_status`). -/
def normalizeTable (t : Table) : Except String (List NormRecord) :=
  let cols := t.cols.map normColName
  if "email" ∈ cols then
    if "manager_name" ∈ cols then
      if "department" ∈ cols then
        if "training_status" ∈ cols then
          .ok (t.rows.map (normalizeRow
            (decide ("first_name" ∈ cols ∧ "last_name" ∈ cols))))
        else .error "training_status"
      else .error "department"
    else .error "manager_name"
  else .error "email"

/-- Rounding half-to-even of a rational to an integer: numpy `rint`, the
tie rule used by pandas `.round`. -/
def rintQ (q : ℚ) : ℤ :=
  let f := ⌊q⌋
  let frac := q - (f : ℚ)
  if frac < 1/2 then f
  else if 1/2 < frac then f + 1
  else if f % 2 = 0 then f else f + 1

/-- Rounding half-up of a rational to an integer (used only to state the
spec's "rounded half-up" wording). -/
def rhalfupQ (q : ℚ) : ℤ :=
  let f := ⌊q⌋
  if q - (f : ℚ) < 1/2 then f else f + 1

/-- Pandas `.round(2)`: scale by 100, round half-to-even, scale back. -/
def round2 (q : ℚ) : ℚ := (rintQ (q * 100) : ℚ) / 100

/-- Half-up rounding to 2 decimals, the spec's stated rule. -/
def round2up (q : ℚ) : ℚ := (rhalfupQ (q * 100) : ℚ) / 100

/-- Executable half-to-even rounding of the fraction `n / d` (`d ≠ 0`) to
an integer, by Euclidean division: `q` is the floor, `r` the remainder,
and the tie `2r = d` goes to the even neighbour. -/
def rintDiv (n : ℤ) (d : ℕ) : ℤ :=
  if d = 0 then 0 else
  let q := n / (d : ℤ)
  let r := n - q * d
  if 2 * r < (d : ℤ) then q
  else if (d : ℤ) < 2 * r then q + 1
  else if q % 2 = 0 then q else q + 1

/-- The exact rational value of `(c / t * 100).round(2)` for counts
`c`, `t`: round `10000 * c / t` half-to-even and divide by 100.
`pct_eq_round2` below proves it equal to the `round2` formula. -/
def pct (c t : ℕ) : ℚ := Rat.divInt (rintDiv (10000 * (c : ℤ)) t) 100

/-- The grouping key of the employee aggregation:
`["email", "nome_funcionario", "manager_name", "department", "tipo"]`. -/
abbrev Key := String × String × String × String × String

/-- The grouping key of a normalized record. -/
def key (r : NormRecord) : Key :=
  (r.email, r.nome_funcionario, r.manager_name, r.department, r.tipo)

/-- One row of the per-employee aggregate `funcionarios`. -/
structure Funcionario where
  email : String
  nome_funcionario : String
  manager_name : String
  department : String
  tipo : String
  total_treinamentos : Nat
  concluidos : Nat
  percentual : ℚ
  status : String
deriving DecidableEq, Repr

/-- The aggregate row of one grouping key `k`: count the records of the
group (`count`), count the completed ones (`sum` of the 0/1 flag), compute
`percentual` rounded to 2 decimals and the `status` from the ≥ 80
threshold. -/
def funcionarioOf (records : List NormRecord) (k : Key) : Funcionario :=
  let grp := records.filter (fun r => key r = k)
  let total := grp.length
  let concl := grp.countP (fun r => r.concluido)
  let perc := pct concl total
  { email := k.1
    nome_funcionario := k.2.1
    manager_name := k.2.2.1
    department := k.2.2.2.1
    tipo := k.2.2.2.2
    total_treinamentos := total
    concluidos := concl
    percentual := perc
    status := if (80 : ℚ) ≤ perc then "Aprovado" else "Reprovado" }

/-- The `funcionarios` aggregation: one row per distinct five-column key. -/
def funcionarios (records : List NormRecord) : List Funcionario :=
  ((records.map key).dedup).map (funcionarioOf records)

/-- The sidebar category filter: keep employees whose `tipo` is selected. -/
def funcionarios_filtro (funcs : List Funcionario) (tipos : List String) :
    List Funcionario :=
  funcs.filter (fun f => f.tipo ∈ tipos)

/-- `resumo.loc[t, s]` guarded as in the source: the row index is checked
(`if t in resumo.index else 0`) but the column is not, so a status absent
from every filtered employee raises `KeyError(s)`.  `pairs` is the
`(tipo, status)` pair of every filtered employee; `unstack(fill_value=0)`
gives 0 for a pair absent from the cross of present tipos and statuses. -/
def resumoLoc (pairs : List (String × String)) (t s : String) :
    Except String Nat :=
  if t ∈ pairs.map Prod.fst then
    if s ∈ pairs.map Prod.snd then
      .ok (pairs.countP (fun p => p = (t, s)))
    else .error s
  else .ok 0

/-- One row of the per-manager rollup `gerentes`. -/
structure Gerente where
  manager_name : String
  aprovado_interno : Nat
  reprovado_interno : Nat
  aprovado_externo : Nat
  reprovado_externo : Nat
  percentual_aprovados : ℚ
deriving DecidableEq, Repr

/-- The rollup row of one manager `m`: the four `(tipo, status)` counts
over that manager's filtered employees and `percentual_aprovados` over the
sum of those four counts. -/
def gerenteOf (fil : List Funcionario) (m : String) : Gerente :=
  let grp := fil.filter (fun f => f.manager_name = m)
  let ai := grp.countP (fun f =>
    decide (f.tipo = "Interno" ∧ f.status = "Aprovado"))
  let ri := grp.countP (fun f =>
    decide (f.tipo = "Interno" ∧ f.status = "Reprovado"))
  let ae := grp.countP (fun f =>
    decide (f.tipo = "Externo" ∧ f.status = "Aprovado"))
  let re := grp.countP (fun f =>
    decide (f.tipo = "Externo" ∧ f.status = "Reprovado"))
  { manager_name := m
    aprovado_interno := ai
    reprovado_interno := ri
    aprovado_externo := ae
    reprovado_externo := re
    percentual_aprovados := pct (ai + ae) (ai + ri + ae + re) }

/-- The `gerentes` rollup: group the filtered employees by `manager_name`,
one row per distinct manager. -/
def gerentes (fil : List Funcionario) : List Gerente :=
  ((fil.map (fun f => f.manager_name)).dedup).map (gerenteOf fil)

/-- Insertion of one employee into a list sorted ascending by `percentual`. -/
def insertByPerc (f : Funcionario) : List Funcionario → List Funcionario
  | [] => [f]
  | g :: gs => if f.percentual ≤ g.percentual then f :: g :: gs
               else g :: insertByPerc f gs

/-- `sort_values("percentual")`: ascending sort of the export view. -/
def sortByPerc : List Funcionario → List Funcionario
  | [] => []
  | f :: fs => insertByPerc f (sortByPerc fs)

/-- The failing-employees view: filtered employees with `status =
"Reprovado"` whose manager is selected, sorted ascending by `percentual`. -/
def reprovadosView (fil : List Funcionario) (managers : List String) :
    List Funcionario :=
  sortByPerc (fil.filter (fun f =>
    f.status = "Reprovado" ∧ f.manager_name ∈ managers))

/-- Everything the dashboard derives from one loaded table and one
category filter. -/
structure Output where
  funcionarios : List Funcionario
  filtro : List Funcionario
  aprovados_internos : Nat
  reprovados_internos : Nat
  aprovados_externos : Nat
  reprovados_externos : Nat
  gerentes : List Gerente
  reprovados : List Funcionario
deriving DecidableEq, Repr

/-- The full pipeline run for one table and category filter, with the
default (all-managers) manager filter of the failing view.  A `KeyError`
anywhere (missing input column, or the unguarded `resumo` column access)
aborts the run with the offending key. -/
def pipeline (t : Table) (tipos : List String) : Except String Output := do
  let recs ← normalizeTable t
  let funcs := funcionarios recs
  let fil := funcionarios_filtro funcs tipos
  let pairs := fil.map (fun f => (f.tipo, f.status))
  let ai ← resumoLoc pairs "Interno" "Aprovado"
  let ri ← resumoLoc pairs "Interno" "Reprovado"
  let ae ← resumoLoc pairs "Externo" "Aprovado"
  let re ← resumoLoc pairs "Externo" "Reprovado"
  let lista_gerentes := (fil.map (fun f => f.manager_name)).dedup
  pure { funcionarios := funcs
         filtro := fil
         aprovados_internos := ai
         reprovados_internos := ri
         aprovados_externos := ae
         reprovados_externos := re
         gerentes := gerentes fil
         reprovados := reprovadosView fil lista_gerentes }

/-! ## Arithmetic lemmas: the executable rounding agrees with the
mathematical `round2`, and rounding preserves percentage bounds. -/

lemma rintDiv_eq_rintQ (n : ℤ) (d : ℕ) (hd : d ≠ 0) :
    rintDiv n d = rintQ ((n : ℚ) / (d : ℚ)) := by
  have hd0 : (0 : ℤ) < (d : ℤ) := by exact_mod_cast Nat.pos_of_ne_zero hd
  have hdQ : (0 : ℚ) < (d : ℚ) := by exact_mod_cast hd0
  have hfl : ⌊(n : ℚ) / (d : ℚ)⌋ = n / (d : ℤ) := Rat.floor_intCast_div_natCast n d
  set x : ℚ := (n : ℚ) / (d : ℚ) with hxdef
  set q : ℤ := n / (d : ℤ) with hq
  set r : ℤ := n - q * (d : ℤ) with hr
  have hx : x - (q : ℚ) = (r : ℚ) / (d : ℚ) := by
    rw [hxdef, hr]
    push_cast
    field_simp
    ring
  have c1 : (x - (q : ℚ) < 1/2) ↔ (2 * r < (d : ℤ)) := by
    rw [hx, div_lt_iff₀ hdQ]
    constructor
    · intro h
      have : (2 * r : ℚ) < (d : ℚ) := by linarith
      exact_mod_cast this
    · intro h
      have : (2 * r : ℚ) < (d : ℚ) := by exact_mod_cast h
      linarith
  have c2 : (1/2 < x - (q : ℚ)) ↔ ((d : ℤ) < 2 * r) := by
    rw [hx, lt_div_iff₀ hdQ]
    constructor
    · intro h
      have : (d : ℚ) < (2 * r : ℚ) := by linarith
      exact_mod_cast this
    · intro h
      have : (d : ℚ) < (2 * r : ℚ) := by exact_mod_cast h
      linarith
  rw [rintDiv, rintQ, if_neg hd]
  simp only [← hq, ← hr, hfl]
  by_cases h1 : 2 * r < (d : ℤ)
  · rw [if_pos h1, if_pos (c1.mpr h1)]
  · rw [if_neg h1, if_neg (fun hc => h1 (c1.mp hc))]
    by_cases h2 : (d : ℤ) < 2 * r
    · rw [if_pos h2, if_pos (c2.mpr h2)]
    · rw [if_neg h2, if_neg (fun hc => h2 (c2.mp hc))]

lemma pct_eq_round2 (c t : ℕ) (ht : t ≠ 0) :
    pct c t = round2 ((c : ℚ) / (t : ℚ) * 100) := by
  rw [pct, round2, Rat.divInt_eq_div, rintDiv_eq_rintQ _ _ ht]
  congr 2
  push_cast
  ring

lemma rintQ_nonneg (q : ℚ) (h : 0 ≤ q) : 0 ≤ rintQ q := by
  have hf : 0 ≤ ⌊q⌋ := Int.floor_nonneg.mpr h
  rw [rintQ]
  split
  · exact hf
  · split
    · omega
    · split <;> omega

lemma rintQ_le (q : ℚ) (B : ℤ) (h : q ≤ (B : ℚ)) : rintQ q ≤ B := by
  have hfB : ⌊q⌋ ≤ B := by
    have := Int.floor_le_floor h
    simpa using this
  rw [rintQ]
  split
  · exact hfB
  · have hlt : ⌊q⌋ < B := by
      rename_i hc
      push_neg at hc
      have h1 : (⌊q⌋ : ℚ) < q := by linarith
      have h2 : (⌊q⌋ : ℚ) < (B : ℚ) := lt_of_lt_of_le h1 h
      exact_mod_cast h2
    split
    · omega
    · split <;> omega

lemma round2_nonneg (q : ℚ) (h : 0 ≤ q) : 0 ≤ round2 q := by
  have : (0 : ℤ) ≤ rintQ (q * 100) := rintQ_nonneg _ (by positivity)
  rw [round2]
  positivity

lemma round2_le_100 (q : ℚ) (h : q ≤ 100) : round2 q ≤ 100 := by
  have h1 : q * 100 ≤ ((10000 : ℤ) : ℚ) := by push_cast; linarith
  have h2 : rintQ (q * 100) ≤ 10000 := rintQ_le _ _ h1
  have h3 : ((rintQ (q * 100) : ℤ) : ℚ) ≤ 10000 := by exact_mod_cast h2
  rw [round2, div_le_iff₀ (by norm_num : (0:ℚ) < 100)]
  linarith

/-! ## Structural lemmas about the aggregation stages. -/

lemma funcionarioOf_total_pos (rs : List NormRecord) (k : Key)
    (hk : k ∈ rs.map key) : 0 < (funcionarioOf rs k).total_treinamentos := by
  obtain ⟨r, hr, hkr⟩ := List.mem_map.mp hk
  have : r ∈ rs.filter (fun r' => key r' = k) :=
    List.mem_filter.mpr ⟨hr, by simp [hkr]⟩
  have hne : rs.filter (fun r' => key r' = k) ≠ [] := by
    intro hnil
    rw [hnil] at this
    exact absurd this (List.not_mem_nil r)
  have := List.length_pos.mpr hne
  simpa [funcionarioOf] using this

lemma funcionarioOf_concl_le (rs : List NormRecord) (k : Key) :
    (funcionarioOf rs k).concluidos ≤ (funcionarioOf rs k).total_treinamentos :=
  List.countP_le_length _

lemma funcionarioOf_status_dichotomy (rs : List NormRecord) (k : Key) :
    (funcionarioOf rs k).status = "Aprovado" ∨
    (funcionarioOf rs k).status = "Reprovado" := by
  rw [funcionarioOf]
  dsimp only
  split <;> simp

lemma normalizeRow_tipo_dichotomy (b : Bool) (r : RawRecord) :
    (normalizeRow b r).tipo = "Interno" ∨ (normalizeRow b r).tipo = "Externo" := by
  rw [normalizeRow]
  dsimp only
  split <;> simp

lemma sum_map_ind_one {α : Type} [DecidableEq α] (m : List α) (a : α)
    (hm : m.Nodup) (ha : a ∈ m) :
    (m.map (fun x => if a = x then (1 : ℕ) else 0)).sum = 1 := by
  induction m with
  | nil => exact absurd ha (List.not_mem_nil a)
  | cons b m ih =>
    rcases List.mem_cons.mp ha with hab | ham
    · have hnot : a ∉ m := by
        rw [hab]
        exact (List.nodup_cons.mp hm).1
      have hzero : (m.map (fun x => if a = x then (1 : ℕ) else 0)).sum = 0 := by
        apply List.sum_eq_zero
        intro n hn
        obtain ⟨x, hx, hxn⟩ := List.mem_map.mp hn
        have hax : a ≠ x := fun hax => hnot (hax ▸ hx)
        simp [hax] at hxn
        omega
      simp [← hab, hzero]
    · have hab : a ≠ b := by
        intro h
        exact (List.nodup_cons.mp hm).1 (h ▸ ham)
      simp [hab, ih (List.nodup_cons.mp hm).2 ham]

lemma sum_map_filter_length_dedup {α : Type} [DecidableEq α]
    (m l : List α) (hm : m.Nodup) (hml : ∀ x ∈ l, x ∈ m) :
    (m.map (fun x => (l.filter (fun y => y = x)).length)).sum = l.length := by
  induction l with
  | nil => simp
  | cons a l ih =>
    have hsplit : (m.map (fun x => ((a :: l).filter (fun y => y = x)).length))
        = m.map (fun x => (if a = x then (1 : ℕ) else 0)
            + (l.filter (fun y => y = x)).length) := by
      apply List.map_congr_left
      intro x _
      rw [List.filter_cons]
      by_cases hax : a = x
      · simp [hax]
        omega
      · simp [hax]
    rw [hsplit, List.sum_map_add,
        sum_map_ind_one m a hm (hml a (List.mem_cons_self a l)),
        ih (fun x hx => hml x (List.mem_cons_of_mem a hx)), List.length_cons]
    omega

lemma funcionarios_sum_total (rs : List NormRecord) :
    ((funcionarios rs).map (fun f => f.total_treinamentos)).sum = rs.length := by
  rw [funcionarios, List.map_map]
  have hmaps :
      ((rs.map key).dedup.map ((fun f => f.total_treinamentos) ∘ funcionarioOf rs))
        = (rs.map key).dedup.map
            (fun k => ((rs.map key).filter (fun y => y = k)).length) := by
    apply List.map_congr_left
    intro k _
    simp only [Function.comp_apply, funcionarioOf]
    rw [List.filter_map, List.length_map]
    rfl
  rw [hmaps,
      sum_map_filter_length_dedup ((rs.map key).dedup) (rs.map key)
        (List.nodup_dedup _) (fun x hx => List.mem_dedup.mpr hx),
      List.length_map]

lemma countP_partition4 (l : List Funcionario)
    (h : ∀ f ∈ l, (f.tipo = "Interno" ∨ f.tipo = "Externo") ∧
                  (f.status = "Aprovado" ∨ f.status = "Reprovado")) :
    l.countP (fun f => decide (f.tipo = "Interno" ∧ f.status = "Aprovado"))
  + l.countP (fun f => decide (f.tipo = "Interno" ∧ f.status = "Reprovado"))
  + l.countP (fun f => decide (f.tipo = "Externo" ∧ f.status = "Aprovado"))
  + l.countP (fun f => decide (f.tipo = "Externo" ∧ f.status = "Reprovado"))
  = l.length := by
  induction l with
  | nil => rfl
  | cons f l ih =>
    have hf := h f (List.mem_cons_self f l)
    have hrest : ∀ g ∈ l, (g.tipo = "Interno" ∨ g.tipo = "Externo") ∧
        (g.status = "Aprovado" ∨ g.status = "Reprovado") :=
      fun g hg => h g (List.mem_cons_of_mem f hg)
    have hsum := ih hrest
    simp only [List.countP_cons, List.length_cons]
    rcases hf.1 with h1 | h1 <;> rcases hf.2 with h2 | h2 <;>
      simp only [h1, h2] <;> simp at hsum ⊢ <;> omega

lemma normalizeTable_ok (t : Table) (recs : List NormRecord)
    (h : normalizeTable t = .ok recs) :
    recs = t.rows.map (normalizeRow (decide
      ("first_name" ∈ t.cols.map normColName ∧
       "last_name" ∈ t.cols.map normColName))) := by
  rw [normalizeTable] at h
  split at h
  · split at h
    · split at h
      · split at h
        · exact (Except.ok.inj h).symm
        · exact absurd h (by simp)
      · exact absurd h (by simp)
    · exact absurd h (by simp)
  · exact absurd h (by simp)

lemma exceptBindOk {ε α β : Type} (a : α) (f : α → Except ε β) :
    (Except.ok (ε := ε) a >>= f) = f a := rfl

/-! ## Concrete fixtures used by witnesses and counterexamples. -/

/-- A completed-training row for employee `a@b.c` under manager `bob`. -/
def rComp : RawRecord :=
  ⟨some "a@b.c", none, none, some "bob", some "ti", some "Completed"⟩

/-- The same employee with a not-completed training. -/
def rIncomp : RawRecord :=
  ⟨some "a@b.c", none, none, some "bob", some "ti", some "not started"⟩

/-- Normalized completed row. -/
def nrComp : NormRecord := normalizeRow false rComp

/-- Normalized not-completed row. -/
def nrIncomp : NormRecord := normalizeRow false rIncomp

/-- A one-row table whose single (internal) employee is approved: every
filtered employee then shares the single status `"Aprovado"`. -/
def tC1 : Table :=
  ⟨["email", "manager_name", "department", "training_status"], [rComp]⟩

/-- Normalized records of `tC1`. -/
def recsC1 : List NormRecord := [nrComp]

/-- A table with no `email` column (before or after normalization). -/
def tNoEmail : Table := ⟨["Name", "manager_name"], []⟩

/-- A well-formed table with zero rows. -/
def tEmpty : Table :=
  ⟨["email", "manager_name", "department", "training_status"], []⟩

/-- Five records of one employee, four completed: exactly 80.00%. -/
def rs45 : List NormRecord := [nrComp, nrComp, nrComp, nrComp, nrIncomp]

/-- The aggregate row of the 4-of-5 employee. -/
def f45 : Funcionario := funcionarioOf rs45 (key nrComp)

/-- 32 records of one employee, one completed: the pre-rounding rate
3.125% is an exact tie at the second decimal. -/
def rs32 : List NormRecord := nrComp :: List.replicate 31 nrIncomp

/-! ## Claim theorems. -/

/-- C2: for every input table whose normalized columns lack `email`, the
pipeline stops before aggregation with a single message identifying the
missing column (`KeyError('email')`, modelled as `Except.error "email"`);
no aggregate, rollup or view is computed, since the run aborts at the
first `df["email"]` access. -/
theorem C2_missing_email_column_fatal (t : Table) (tipos : List String)
    (h : "email" ∉ t.cols.map normColName) :
    normalizeTable t = .error "email" ∧ pipeline t tipos = .error "email" := by
  have h1 : normalizeTable t = .error "email" := by
    rw [normalizeTable]
    exact if_neg h
  refine ⟨h1, ?_⟩
  rw [pipeline, h1]
  rfl

/-- C2 witness: a concrete table with columns `["Name", "manager_name"]`
has no `email` column, and the pipeline aborts with the missing-column
message. -/
theorem C2_missing_email_column_fatal_witness :
    ("email" ∉ tNoEmail.cols.map normColName) ∧
    (normalizeTable tNoEmail = .error "email" ∧
     pipeline tNoEmail [] = .error "email") :=
  ⟨by decide, C2_missing_email_column_fatal tNoEmail [] (by decide)⟩

/-- C1: the summary used for the metric cards does NOT read 0 for every
absent (category, status) combination.  On a one-row dataset whose single
filtered employee is internal and approved, `resumo.loc["Interno",
"Reprovado"]` indexes the missing column `"Reprovado"` and the run aborts
with a `KeyError` — the source guards only the row index (`"Interno" in
resumo.index`), not the status column. -/
theorem C1_summary_missing_status_key :
    pipeline tC1 ["Interno", "Externo"] = .error "Reprovado" ∧
    normalizeTable tC1 = .ok recsC1 ∧
    (funcionarios_filtro (funcionarios recsC1) ["Interno", "Externo"]).map
      (fun f => (f.tipo, f.status)) = [("Interno", "Aprovado")] := by
  refine ⟨by decide, by decide, by decide⟩

/-- C8: a zero-row input with the required columns, and any input whose
category filter leaves zero employees, run to completion: every derived
table (aggregate, rollup, failing view) and every summary count is empty
or zero, and no `KeyError` is raised. -/
theorem C8_empty_input_empty_outputs :
    (∀ (t : Table) (tipos : List String),
      t.rows = [] →
      "email" ∈ t.cols.map normColName →
      "manager_name" ∈ t.cols.map normColName →
      "department" ∈ t.cols.map normColName →
      "training_status" ∈ t.cols.map normColName →
      pipeline t tipos = .ok ⟨[], [], 0, 0, 0, 0, [], []⟩) ∧
    (∀ (t : Table) (tipos : List String) (recs : List NormRecord),
      normalizeTable t = .ok recs →
      funcionarios_filtro (funcionarios recs) tipos = [] →
      pipeline t tipos = .ok ⟨funcionarios recs, [], 0, 0, 0, 0, [], []⟩) := by
  constructor
  · intro t tipos hrows h1 h2 h3 h4
    have hok : normalizeTable t = .ok [] := by
      rw [normalizeTable]
      rw [if_pos h1, if_pos h2, if_pos h3, if_pos h4, hrows]
      rfl
    rw [pipeline, hok, exceptBindOk]
    have hfil : funcionarios_filtro (funcionarios []) tipos = [] := rfl
    rfl
  · intro t tipos recs hok hfil
    rw [pipeline, hok, exceptBindOk]
    simp only []
    rw [hfil]
    rfl

/-- C8 witness: the concrete empty table with all required columns yields
the all-empty output under the full category filter. -/
theorem C8_empty_input_empty_outputs_witness :
    (tEmpty.rows = []) ∧
    pipeline tEmpty ["Interno", "Externo"] = .ok ⟨[], [], 0, 0, 0, 0, [], []⟩ :=
  ⟨rfl, C8_empty_input_empty_outputs.1 tEmpty ["Interno", "Externo"] rfl
    (by decide) (by decide) (by decide) (by decide)⟩

/-- A row with a null `email` and a completed training. -/
def rNull1 : RawRecord := ⟨none, none, none, some "bob", some "ti", some "Completed"⟩

/-- A row with a null `email` and a pending training. -/
def rNull2 : RawRecord := ⟨none, none, none, some "bob", some "ti", some "pending"⟩

/-- A table whose two rows both have null emails. -/
def tC3 : Table :=
  ⟨["email", "manager_name", "department", "training_status"], [rNull1, rNull2]⟩

/-- Normalized records of `tC3`. -/
def recsC3 : List NormRecord := [normalizeRow false rNull1, normalizeRow false rNull2]

/-- C3 counterexample: a record with a null `email` does not normalize to
the empty string — `astype(str)` stringifies the null, so the normalized
email is `"nan"`. -/
theorem C3_counterexample_not_empty_string :
    rNull1.email = none ∧ (normalizeRow false rNull1).email = "nan" ∧
    (normalizeRow false rNull1).email ≠ "" := by
  refine ⟨rfl, by decide, by decide⟩

/-- C3 (amended): a missing/null `email` is normalized to the string
`"nan"` (the stringified null), so all such rows share the same email key
`"nan"` — one ambiguous bucket per remaining identity fields — and the
pipeline does not crash on them: the two null-email rows of `tC3`
normalize fine and aggregate into a single employee with 2 trainings. -/
theorem C3_null_email_nan_bucket :
    (∀ (b : Bool) (r : RawRecord), r.email = none →
      (normalizeRow b r).email = "nan") ∧
    (∀ (b b' : Bool) (r r' : RawRecord), r.email = none → r'.email = none →
      (normalizeRow b r).email = (normalizeRow b' r').email) ∧
    (normalizeTable tC3 = .ok recsC3 ∧
     (funcionarios recsC3).map (fun f => (f.email, f.total_treinamentos))
       = [("nan", 2)]) := by
  have hnan : ∀ (b : Bool) (r : RawRecord), r.email = none →
      (normalizeRow b r).email = "nan" := by
    intro b r hr
    show normalizar_texto r.email = "nan"
    rw [hr]
    decide
  refine ⟨hnan, ?_, by decide, by decide⟩
  intro b b' r r' hr hr'
  rw [hnan b r hr, hnan b' r' hr']

/-- C3 witness: the amended theorem applied to the concrete null-email
record `rNull1`. -/
theorem C3_null_email_nan_bucket_witness :
    rNull1.email = none ∧ (normalizeRow false rNull1).email = "nan" :=
  ⟨rfl, C3_null_email_nan_bucket.1 false rNull1 rfl⟩

/-- A row whose email needs stripping, lowercasing and dot-splitting for
the fallback name derivation. -/
def rJohn : RawRecord :=
  ⟨some " John.Doe@Corp.com ", none, none, some "bob", some "ti", some "x"⟩

/-- A table containing `rJohn`, with no `first_name`/`last_name` columns. -/
def tC9 : Table :=
  ⟨["email", "manager_name", "department", "training_status"], [rJohn]⟩

/-- C9: when the dataset does not have both `first_name` and `last_name`
columns, every row's employee name is derived from the local part of the
normalized email (the substring before `@`), with the separator `.`
replaced by a space and each word capitalized (Python title-casing);
concretely, `" John.Doe@Corp.com "` yields `"John Doe"`. -/
theorem C9_name_from_email_local_part :
    (∀ (t : Table) (recs : List NormRecord),
      normalizeTable t = .ok recs →
      ¬("first_name" ∈ t.cols.map normColName ∧
        "last_name" ∈ t.cols.map normColName) →
      recs = t.rows.map (normalizeRow false) ∧
      ∀ r ∈ t.rows, (normalizeRow false r).nome_funcionario =
        pyTitle (pyReplace (pySplitHead (normalizar_texto r.email) '@') '.' " ")) ∧
    (normalizeRow false rJohn).nome_funcionario = "John Doe" := by
  refine ⟨?_, by decide⟩
  intro t recs hok hnames
  have hrecs := normalizeTable_ok t recs hok
  rw [decide_eq_false hnames] at hrecs
  refine ⟨hrecs, ?_⟩
  intro r _
  rfl

/-- C9 witness: the name-derivation theorem applied to the concrete table
`tC9`. -/
theorem C9_name_from_email_local_part_witness :
    (normalizeTable tC9 = .ok (tC9.rows.map (normalizeRow false))) ∧
    ((tC9.rows.map (normalizeRow false)) = tC9.rows.map (normalizeRow false) ∧
     ∀ r ∈ tC9.rows, (normalizeRow false r).nome_funcionario =
       pyTitle (pyReplace (pySplitHead (normalizar_texto r.email) '@') '.' " ")) :=
  ⟨by decide, C9_name_from_email_local_part.1 tC9 (tC9.rows.map (normalizeRow false))
    (by decide) (by decide)⟩

/-- A row with a null `manager_name`. -/
def rMNull : RawRecord :=
  ⟨some "a@b.c", none, none, none, some "ti", some "Completed"⟩

/-- The filtered employee aggregate of the one-row dataset `[rMNull]`. -/
def filC10 : List Funcionario :=
  funcionarios_filtro (funcionarios [normalizeRow false rMNull])
    ["Interno", "Externo"]

/-- C10: a missing/null `manager_name` is stringified to `"nan"` and then
title-cased to the literal `"Nan"`; such rows are not dropped — the
employee row survives aggregation and the manager rollup groups it under
the manager name `"Nan"`. -/
theorem C10_null_manager_nan :
    formatar_nome none = "Nan" ∧
    (∀ (b : Bool) (r : RawRecord), r.manager_name = none →
      (normalizeRow b r).manager_name = "Nan") ∧
    (funcionarios [normalizeRow false rMNull]).map (fun f => f.manager_name)
      = ["Nan"] ∧
    (gerentes filC10).map (fun g => g.manager_name) = ["Nan"] := by
  refine ⟨by decide, ?_, by decide, by decide⟩
  intro b r hr
  show formatar_nome r.manager_name = "Nan"
  rw [hr]
  decide

/-- C10 witness: the null-manager theorem applied to the concrete record
`rMNull`. -/
theorem C10_null_manager_nan_witness :
    rMNull.manager_name = none ∧ (normalizeRow false rMNull).manager_name = "Nan" :=
  ⟨rfl, C10_null_manager_nan.2.1 false rMNull rfl⟩

lemma funcionarioOf_status_iff (rs : List NormRecord) (k : Key) :
    (funcionarioOf rs k).status = "Aprovado" ↔
    (80 : ℚ) ≤ (funcionarioOf rs k).percentual := by
  rw [funcionarioOf]
  dsimp only
  split
  · rename_i h
    simp [h]
  · rename_i h
    simp [h]

/-- C4: an employee aggregate has `status = "Aprovado"` exactly when its
rounded `percentual` is at least 80 (inclusive boundary); in particular a
group of 5 trainings with 4 completed has `percentual = 80` and is
approved, and a group whose `percentual` is 79.99 is failed. -/
theorem C4_status_threshold :
    ∀ (rs : List NormRecord) (f : Funcionario), f ∈ funcionarios rs →
      ((f.status = "Aprovado" ↔ (80 : ℚ) ≤ f.percentual) ∧
       (f.total_treinamentos = 5 → f.concluidos = 4 →
          f.percentual = 80 ∧ f.status = "Aprovado") ∧
       (f.percentual = (7999 : ℚ) / 100 → f.status = "Reprovado")) := by
  intro rs f hf
  obtain ⟨k, hk, rfl⟩ := List.mem_map.mp hf
  have hiff := funcionarioOf_status_iff rs k
  have hp : (funcionarioOf rs k).percentual =
      pct (funcionarioOf rs k).concluidos (funcionarioOf rs k).total_treinamentos := rfl
  refine ⟨hiff, ?_, ?_⟩
  · intro h5 h4
    have hp45 : (funcionarioOf rs k).percentual = pct 4 5 := by
      rw [hp, h4, h5]
    have h80 : pct 4 5 = (80 : ℚ) := by decide
    refine ⟨hp45.trans h80, hiff.mpr ?_⟩
    rw [hp45, h80]
  · intro h7999
    rcases funcionarioOf_status_dichotomy rs k with h | h
    · exfalso
      have hle := hiff.mp h
      rw [h7999] at hle
      norm_num at hle
    · exact h

/-- C4 witness: the threshold theorem applied to the concrete 4-of-5
employee, which is approved at exactly 80.00%. -/
theorem C4_status_threshold_witness :
    f45 ∈ funcionarios rs45 ∧
    ((f45.status = "Aprovado" ↔ (80 : ℚ) ≤ f45.percentual) ∧
     (f45.total_treinamentos = 5 → f45.concluidos = 4 →
        f45.percentual = 80 ∧ f45.status = "Aprovado") ∧
     (f45.percentual = (7999 : ℚ) / 100 → f45.status = "Reprovado")) :=
  ⟨by decide, C4_status_threshold rs45 f45 (by decide)⟩

/-- C6: employee aggregation conserves the data — per group the completed
count never exceeds the training count, the training counts over all
groups sum to the number of input records, and there is exactly one output
row per distinct grouping key. -/
theorem C6_aggregate_conservation :
    ∀ rs : List NormRecord,
      (∀ f ∈ funcionarios rs, f.concluidos ≤ f.total_treinamentos) ∧
      ((funcionarios rs).map (fun f => f.total_treinamentos)).sum = rs.length ∧
      (funcionarios rs).length = ((rs.map key).dedup).length := by
  intro rs
  refine ⟨?_, funcionarios_sum_total rs, List.length_map _ _⟩
  intro f hf
  obtain ⟨k, hk, rfl⟩ := List.mem_map.mp hf
  exact funcionarioOf_concl_le rs k

/-- C6 witness: conservation applied to the concrete 5-record input. -/
theorem C6_aggregate_conservation_witness :
    f45 ∈ funcionarios rs45 ∧ f45.concluidos ≤ f45.total_treinamentos :=
  ⟨by decide, (C6_aggregate_conservation rs45).1 f45 (by decide)⟩

/-- C7 counterexample: pass rates are not rounded half-up.  For 1
completed of 32 trainings the exact rate is 3.125%, a tie at the second
decimal: half-up rounding gives 3.13, but the aggregate stores the
half-to-even (numpy) result 3.12. -/
theorem C7_counterexample_half_up :
    (funcionarios rs32).map (fun f => f.percentual) = [Rat.divInt 312 100] ∧
    round2up ((1 : ℚ) / 32 * 100) = Rat.divInt 313 100 ∧
    Rat.divInt 312 100 ≠ Rat.divInt 313 100 := by
  refine ⟨by decide, ?_, by decide⟩
  have hval : (1 : ℚ) / 32 * 100 * 100 = 625 / 2 := by norm_num
  have hfloor : ⌊(625 : ℚ) / 2⌋ = 312 := by
    rw [Int.floor_eq_iff]
    constructor <;> norm_num
  rw [round2up, rhalfupQ, hval, hfloor]
  norm_num [Rat.divInt_eq_div]

/-- C7 (amended): every employee aggregate's `percentual` is exactly
`completed / total * 100` rounded **half-to-even** (the numpy/pandas tie
rule, not half-up) to 2 decimal places, and it always lies in [0, 100]. -/
theorem C7_pass_rate_rounding_bounds :
    ∀ (rs : List NormRecord) (f : Funcionario), f ∈ funcionarios rs →
      f.percentual = round2 ((f.concluidos : ℚ) / (f.total_treinamentos : ℚ) * 100) ∧
      0 ≤ f.percentual ∧ f.percentual ≤ 100 := by
  intro rs f hf
  obtain ⟨k, hk, rfl⟩ := List.mem_map.mp hf
  have htpos : 0 < (funcionarioOf rs k).total_treinamentos :=
    funcionarioOf_total_pos rs k (List.mem_dedup.mp hk)
  have hcle : (funcionarioOf rs k).concluidos ≤ (funcionarioOf rs k).total_treinamentos :=
    funcionarioOf_concl_le rs k
  have hp : (funcionarioOf rs k).percentual =
      pct (funcionarioOf rs k).concluidos (funcionarioOf rs k).total_treinamentos := rfl
  have heq : (funcionarioOf rs k).percentual = round2
      (((funcionarioOf rs k).concluidos : ℚ)
        / ((funcionarioOf rs k).total_treinamentos : ℚ) * 100) :=
    hp.trans (pct_eq_round2 _ _ (Nat.pos_iff_ne_zero.mp htpos))
  have htQ : (0 : ℚ) < ((funcionarioOf rs k).total_treinamentos : ℚ) := by
    exact_mod_cast htpos
  have hcQ : ((funcionarioOf rs k).concluidos : ℚ)
      ≤ ((funcionarioOf rs k).total_treinamentos : ℚ) := by exact_mod_cast hcle
  have hX0 : (0 : ℚ) ≤ ((funcionarioOf rs k).concluidos : ℚ)
      / ((funcionarioOf rs k).total_treinamentos : ℚ) * 100 := by positivity
  have hX1 : ((funcionarioOf rs k).concluidos : ℚ)
      / ((funcionarioOf rs k).total_treinamentos : ℚ) * 100 ≤ 100 := by
    have hdiv : ((funcionarioOf rs k).concluidos : ℚ)
        / ((funcionarioOf rs k).total_treinamentos : ℚ) ≤ 1 :=
      (div_le_one htQ).mpr hcQ
    linarith
  exact ⟨heq, heq ▸ round2_nonneg _ hX0, heq ▸ round2_le_100 _ hX1⟩

/-- C7 witness: the rounding/bounds theorem applied to the concrete 4-of-5
employee. -/
theorem C7_pass_rate_rounding_bounds_witness :
    f45 ∈ funcionarios rs45 ∧
    (f45.percentual = round2 ((f45.concluidos : ℚ) / (f45.total_treinamentos : ℚ) * 100) ∧
     0 ≤ f45.percentual ∧ f45.percentual ≤ 100) :=
  ⟨by decide, C7_pass_rate_rounding_bounds rs45 f45 (by decide)⟩

/-- C5: for every manager row in the rollup over the category-filtered
employee aggregates of a normalized table, the four `(tipo, status)`
counts sum to the number of filtered employees under that manager, and
`percentual_aprovados` is exactly `(approved_internal + approved_external)
/ (sum of the four counts) * 100` rounded to 2 decimals (hence it matches
any recomputation within 0.01). -/
theorem C5_rollup_consistency :
    ∀ (t : Table) (recs : List NormRecord) (filt : List String),
      normalizeTable t = .ok recs →
      ∀ g ∈ gerentes (funcionarios_filtro (funcionarios recs) filt),
        (g.aprovado_interno + g.reprovado_interno + g.aprovado_externo
            + g.reprovado_externo
          = ((funcionarios_filtro (funcionarios recs) filt).filter
              (fun f => f.manager_name = g.manager_name)).length) ∧
        g.percentual_aprovados = round2
          (((g.aprovado_interno + g.aprovado_externo : ℕ) : ℚ)
            / ((g.aprovado_interno + g.reprovado_interno + g.aprovado_externo
                + g.reprovado_externo : ℕ) : ℚ) * 100) := by
  intro t recs filt hok g hg
  obtain ⟨m, hm, rfl⟩ := List.mem_map.mp hg
  have hdich : ∀ f ∈ funcionarios_filtro (funcionarios recs) filt,
      (f.tipo = "Interno" ∨ f.tipo = "Externo") ∧
      (f.status = "Aprovado" ∨ f.status = "Reprovado") := by
    intro f hfmem
    have hf2 : f ∈ funcionarios recs := (List.mem_filter.mp hfmem).1
    obtain ⟨k, hk, rfl⟩ := List.mem_map.mp hf2
    refine ⟨?_, funcionarioOf_status_dichotomy recs k⟩
    obtain ⟨r, hr, hkr⟩ := List.mem_map.mp (List.mem_dedup.mp hk)
    have htipo : (funcionarioOf recs k).tipo = r.tipo := by
      rw [← hkr]
      rfl
    rw [htipo]
    rw [normalizeTable_ok t recs hok] at hr
    obtain ⟨raw, _, rfl⟩ := List.mem_map.mp hr
    exact normalizeRow_tipo_dichotomy _ raw
  have hgrp := countP_partition4
    ((funcionarios_filtro (funcionarios recs) filt).filter
      (fun f => f.manager_name = m))
    (fun f hf => hdich f (List.mem_filter.mp hf).1)
  have hsum : (gerenteOf (funcionarios_filtro (funcionarios recs) filt) m).aprovado_interno
      + (gerenteOf (funcionarios_filtro (funcionarios recs) filt) m).reprovado_interno
      + (gerenteOf (funcionarios_filtro (funcionarios recs) filt) m).aprovado_externo
      + (gerenteOf (funcionarios_filtro (funcionarios recs) filt) m).reprovado_externo
      = ((funcionarios_filtro (funcionarios recs) filt).filter
          (fun f => f.manager_name = m)).length := hgrp
  refine ⟨hsum, ?_⟩
  have hne : (gerenteOf (funcionarios_filtro (funcionarios recs) filt) m).aprovado_interno
      + (gerenteOf (funcionarios_filtro (funcionarios recs) filt) m).reprovado_interno
      + (gerenteOf (funcionarios_filtro (funcionarios recs) filt) m).aprovado_externo
      + (gerenteOf (funcionarios_filtro (funcionarios recs) filt) m).reprovado_externo
      ≠ 0 := by
    rw [hsum]
    obtain ⟨f, hf, hfm⟩ := List.mem_map.mp (List.mem_dedup.mp hm)
    have : f ∈ (funcionarios_filtro (funcionarios recs) filt).filter
        (fun f => f.manager_name = m) :=
      List.mem_filter.mpr ⟨hf, by simp [hfm]⟩
    intro hlen
    rw [List.length_eq_zero] at hlen
    rw [hlen] at this
    exact absurd this (List.not_mem_nil f)
  have hperc : (gerenteOf (funcionarios_filtro (funcionarios recs) filt) m).percentual_aprovados
      = pct ((gerenteOf (funcionarios_filtro (funcionarios recs) filt) m).aprovado_interno
          + (gerenteOf (funcionarios_filtro (funcionarios recs) filt) m).aprovado_externo)
        ((gerenteOf (funcionarios_filtro (funcionarios recs) filt) m).aprovado_interno
          + (gerenteOf (funcionarios_filtro (funcionarios recs) filt) m).reprovado_interno
          + (gerenteOf (funcionarios_filtro (funcionarios recs) filt) m).aprovado_externo
          + (gerenteOf (funcionarios_filtro (funcionarios recs) filt) m).reprovado_externo) := rfl
  rw [hperc, pct_eq_round2 _ _ hne]

/-- The rollup row of manager `Bob` in the one-row dataset of `tC1`. -/
def gC5 : Gerente :=
  gerenteOf (funcionarios_filtro (funcionarios recsC1) ["Interno", "Externo"]) "Bob"

/-- C5 witness: the rollup-consistency theorem applied to the concrete
one-employee dataset, whose single manager row has counts 1/0/0/0. -/
theorem C5_rollup_consistency_witness :
    normalizeTable tC1 = .ok recsC1 ∧
    gC5 ∈ gerentes (funcionarios_filtro (funcionarios recsC1) ["Interno", "Externo"]) ∧
    (gC5.aprovado_interno + gC5.reprovado_interno + gC5.aprovado_externo
        + gC5.reprovado_externo
      = ((funcionarios_filtro (funcionarios recsC1) ["Interno", "Externo"]).filter
          (fun f => f.manager_name = gC5.manager_name)).length) :=
  ⟨by decide, by decide,
    (C5_rollup_consistency tC1 recsC1 ["Interno", "Externo"] (by decide) gC5
      (by decide)).1⟩
